import Mathlib

/-!
# Verification of the `guck` diff-review tool

Shallow embedding of the two core components of the repository:

* `src/git.rs` — the Diff Engine (`GitRepo::get_diff_files`), modelled over an
  abstract diff object (a list of per-file deltas with statuses, per-file line
  statistics and printed diff lines), mirroring the `git2` interface the code
  consumes.
* `src/state.rs` — the Viewed-State Store (`StateManager`), with `HashMap`s
  modelled as association lists (key lookup and entry-style upsert) and the
  serde JSON document modelled by an explicit `Json` inductive together with
  the encoding/decoding the serde derive performs on `ViewedState`.
* `src/server.rs` / `src/main.rs` — the slice of the HTTP layer that claim C10
  needs: the configuration flowing from the CLI `--base` option into
  `server::start`, and the base-branch argument `diff_handler` actually passes
  to `get_diff_files`.

Rust `Result` values are embedded as `Except String`, panics (`unwrap` on
`None`) as `Option.none` propagating through the computation, and `&OsStr`
paths by their `to_str` projection (`some s` for valid UTF-8, `none`
otherwise).
-/

namespace Guck

/-! ## JSON documents

`serde_json` values, at the document level.  The textual rendering
(`to_string_pretty`) and parsing (`from_str`) of `serde_json` are external
library code; they are modelled by `FileData` below: a state file either does
not exist, exists but is not syntactically valid JSON, or parses to a `Json`
document. -/

inductive Json where
  | null : Json
  | bool (b : Bool) : Json
  | num (n : Int) : Json
  | str (s : String) : Json
  | arr (elems : List Json) : Json
  | obj (fields : List (String × Json)) : Json
  deriving Repr

/-! ## Association-list model of `HashMap`

`state.rs` uses `HashMap<String, _>` at every level.  Only `get`, the `entry`
API (`or_insert_with` followed by an in-place mutation) and iteration are
used, so a `HashMap` is modelled as an association list with `alGet` and
`upsert`. -/

/-- `m.get(k)`: first value stored under `k`. -/
def alGet {α : Type} (m : List (String × α)) (k : String) : Option α :=
  match m with
  | [] => none
  | (k', v) :: rest => if k' = k then some v else alGet rest k

/-- `m.entry(k).or_insert_with(dflt)` followed by mutating the entry with `f`:
replaces the value stored under `k` (or appends a fresh entry built from the
default) — the functional form of the entry-API usage in `mark_file_viewed`. -/
def upsert {α : Type} (m : List (String × α)) (k : String) (f : Option α → α) :
    List (String × α) :=
  match m with
  | [] => [(k, f none)]
  | (k', v) :: rest =>
    if k' = k then (k', f (some v)) :: rest else (k', v) :: upsert rest k f

/-! ## `ViewedState` (src/state.rs lines 7–11) -/

/-- `struct ViewedState { repos: HashMap<String, HashMap<String, HashMap<String, Vec<String>>>> }` —
repo_path → branch → commit → list of viewed files. -/
structure ViewedState where
  repos : List (String × List (String × List (String × List String)))
  deriving Repr, DecidableEq

/-- `ViewedState::default()`: the empty mapping. -/
def ViewedState.default : ViewedState := ⟨[]⟩

/-! ## serde encoding of `ViewedState`

The `#[derive(Serialize, Deserialize)]` on `ViewedState`: a struct with a
single field `repos` holding nested string-keyed maps whose leaves are arrays
of strings. -/

def encFiles (files : List String) : Json :=
  .arr (files.map .str)

def encCommits (commits : List (String × List String)) : Json :=
  .obj (commits.map fun p => (p.1, encFiles p.2))

def encBranches (branches : List (String × List (String × List String))) : Json :=
  .obj (branches.map fun p => (p.1, encCommits p.2))

def encRepos (repos : List (String × List (String × List (String × List String)))) : Json :=
  .obj (repos.map fun p => (p.1, encBranches p.2))

/-- Serialization of the whole state: a single-field JSON object. -/
def ViewedState.toJson (s : ViewedState) : Json :=
  .obj [("repos", encRepos s.repos)]

/-- Decode every element of a JSON array, failing on the first element the
element decoder rejects. -/
def decodeList {α : Type} (f : Json → Option α) : List Json → Option (List α)
  | [] => some []
  | j :: rest =>
    match f j with
    | some a => (decodeList f rest).map (a :: ·)
    | none => none

/-- Decode every field value of a JSON object, failing on the first value the
value decoder rejects. -/
def decodeFields {α : Type} (f : Json → Option α) :
    List (String × Json) → Option (List (String × α))
  | [] => some []
  | (k, j) :: rest =>
    match f j with
    | some a => (decodeFields f rest).map ((k, a) :: ·)
    | none => none

def decStr : Json → Option String
  | .str s => some s
  | _ => none

def decFiles : Json → Option (List String)
  | .arr elems => decodeList decStr elems
  | _ => none

def decCommits : Json → Option (List (String × List String))
  | .obj fields => decodeFields decFiles fields
  | _ => none

def decBranches : Json → Option (List (String × List (String × List String)))
  | .obj fields => decodeFields decCommits fields
  | _ => none

def decRepos : Json → Option (List (String × List (String × List (String × List String))))
  | .obj fields => decodeFields decBranches fields
  | _ => none

/-- Deserialization of the whole state: the document must be an object with a
`repos` field of the right nested shape (serde ignores unknown fields but
requires `repos`). -/
def ViewedState.fromJson (j : Json) : Option ViewedState :=
  match j with
  | .obj fields =>
    match alGet fields "repos" with
    | some jr => (decRepos jr).map ViewedState.mk
    | none => none
  | _ => none

/-! ## `StateManager` (src/state.rs lines 13–91)

The state-directory and file-path computation (`dirs::state_dir()`,
`create_dir_all`, `viewed.json`) is filesystem environment; the modelled part
of the manager is the in-memory `state`.  The contents of the state file are
modelled by `FileData`. -/

structure StateManager where
  state : ViewedState
  deriving Repr, DecidableEq

/-- What `StateManager::new` finds at the state-file path. -/
inductive FileData where
  | absent : FileData
  | invalid : FileData
  | json (j : Json) : FileData
  deriving Repr

/-- `StateManager::new` (lines 19–38): if the file exists, parse it and fall
back to the default state on any parse failure (`unwrap_or_default`);
otherwise start from the default state. -/
def StateManager.new (fd : FileData) : Except String StateManager :=
  match fd with
  | .absent => .ok ⟨ViewedState.default⟩
  | .invalid => .ok ⟨ViewedState.default⟩
  | .json j => .ok ⟨(ViewedState.fromJson j).getD ViewedState.default⟩

/-- `is_file_viewed` (lines 40–55): chained `get`/`and_then` lookups with
`unwrap_or(false)`, wrapped in `Ok`. -/
def is_file_viewed (s : ViewedState) (repo_path branch commit file_path : String) :
    Except String Bool :=
  .ok ((((alGet s.repos repo_path).bind fun branches =>
          (alGet branches branch).bind fun commits =>
            (alGet commits commit).map fun files =>
              files.contains file_path)).getD false)

/-- The `if !commit_files.contains(...) { commit_files.push(...) }` step of
`mark_file_viewed` (lines 78–80). -/
def markList (files : List String) (file_path : String) : List String :=
  if files.contains file_path then files else files ++ [file_path]

/-- The in-memory mutation of `mark_file_viewed` (lines 57–80): three nested
`entry(..).or_insert_with(..)` steps, then the guarded push. -/
def mark_state (s : ViewedState) (repo_path branch commit file_path : String) :
    ViewedState :=
  ⟨upsert s.repos repo_path fun repo =>
    upsert (repo.getD []) branch fun branch_map =>
      upsert (branch_map.getD []) commit fun commit_files =>
        markList (commit_files.getD []) file_path⟩

/-- `save` (lines 86–91): serialize the entire in-memory structure and
overwrite the state file with it.  The document written is returned. -/
def StateManager.save (m : StateManager) : Json :=
  m.state.toJson

/-- `mark_file_viewed` (lines 57–84): mutate the in-memory state, then `save`.
Returns the new manager together with the persisted document. -/
def mark_file_viewed (m : StateManager) (repo_path branch commit file_path : String) :
    StateManager × Json :=
  let m' : StateManager := ⟨mark_state m.state repo_path branch commit file_path⟩
  (m', m'.save)

/-- The per-key collection: the list of viewed files the state holds for a
`(repo_path, branch, commit)` key (empty when any level of the key is
absent). -/
def viewed_files (s : ViewedState) (repo_path branch commit : String) : List String :=
  (alGet ((alGet ((alGet s.repos repo_path).getD []) branch).getD []) commit).getD []

/-- `n` successive `mark_file_viewed` calls for the same key, tracking the
in-memory manager. -/
def mark_iter (n : Nat) (m : StateManager) (repo_path branch commit file_path : String) :
    StateManager :=
  match n with
  | 0 => m
  | n + 1 => (mark_file_viewed (mark_iter n m repo_path branch commit file_path)
      repo_path branch commit file_path).1

/-! ## The Diff Engine (src/git.rs)

`get_diff_files` consumes a `git2::Diff` through three interfaces: the delta
enumeration (`diff.foreach` with a file callback), the aggregate statistics
(`diff.stats()`), and the patch printer (`diff.print(DiffFormat::Patch, ..)`).
A diff is modelled as the list of its per-file deltas; each delta carries its
two `DiffFile` sides, its `Delta` status, its own line insertion and deletion
counts, and the printed lines of its hunks. `diff.stats()` sums the per-file
counts over the whole diff, and `diff.print` visits every line of every delta
— file headers (origin `F`), hunk headers (origin `H`) and end-of-file-newline
markers included — in enumeration order. -/

/-- A `&Path` as consumed by the code: only `to_str()` is called on it, so a
path is represented by that projection (`some s` when the bytes are valid
UTF-8, `none` otherwise). -/
structure OsPath where
  to_str : Option String
  deriving Repr, DecidableEq

/-- `git2::Delta` variants that can reach the `match` in the file callback. -/
inductive DeltaStatus where
  | added | deleted | modified | renamed | copied
  | unmodified | ignored | untracked | typechange | unreadable | conflicted
  deriving Repr, DecidableEq

/-- One line as presented to the `diff.print` callback: its origin marker and
the result of `std::str::from_utf8(line.content())` (`none` when the content
bytes are not valid UTF-8), as a character list. -/
structure DiffLine where
  origin : Char
  content : Option (List Char)
  deriving Repr, DecidableEq

/-- One delta of the diff, with the per-file data the three `git2` interfaces
expose for it. -/
structure DiffFileDelta where
  new_path : Option OsPath
  old_path : Option OsPath
  status : DeltaStatus
  insertions : Nat
  deletions : Nat
  lines : List DiffLine
  deriving Repr, DecidableEq

/-- A `git2::Diff`: its deltas in enumeration order. -/
abbrev Diff := List DiffFileDelta

/-- `diff.stats().insertions()`: total line additions over the whole diff. -/
def Diff.stats_insertions (diff : Diff) : Nat :=
  (diff.map DiffFileDelta.insertions).sum

/-- `diff.stats().deletions()`: total line deletions over the whole diff. -/
def Diff.stats_deletions (diff : Diff) : Nat :=
  (diff.map DiffFileDelta.deletions).sum

/-- The path computation of the file callback (git.rs lines 83–89):
`delta.new_file().path().unwrap_or_else(|| delta.old_file().path().unwrap()).to_str().unwrap_or("")`.
The `unwrap()` panics when the old side also has no path; the panic is
modelled as `none`. -/
def delta_file_path (delta : DiffFileDelta) : Option (List Char) :=
  match delta.new_path with
  | some p => some ((p.to_str.map String.data).getD [])
  | none =>
    match delta.old_path with
    | some p => some ((p.to_str.map String.data).getD [])
    | none => none

/-- The status string of the file callback (git.rs lines 91–99). -/
def delta_status_str (delta : DiffFileDelta) : String :=
  match delta.status with
  | .added => "added"
  | .deleted => "deleted"
  | .modified => "modified"
  | .renamed => "renamed"
  | .copied => "copied"
  | _ => "unknown"

/-- One chunk appended to `patch_str` by the print callback (git.rs lines
116–128): for origins `+`, `-` and space, the origin character followed by
the line content (empty on invalid UTF-8); every other origin appends
nothing. -/
def line_chunk (line : DiffLine) : List Char :=
  if line.origin = '+' ∨ line.origin = '-' ∨ line.origin = ' ' then
    line.origin :: (line.content.getD [])
  else
    []

/-- The full `patch_str` produced by `diff.print(DiffFormat::Patch, ..)` over
the whole diff: the chunks of every line of every delta, concatenated. -/
def diff_patch_chars (diff : Diff) : List Char :=
  ((diff.map DiffFileDelta.lines).flatten.map line_chunk).flatten

/-- The lines of a character string: segments between newline characters
(`"a\nb"` gives `[a, b]`; a trailing newline contributes a final empty
segment). Used to state what the lines of a `patch` field look like. -/
def splitLines : List Char → List (List Char)
  | [] => [[]]
  | c :: cs =>
    if c = '\n' then
      [] :: splitLines cs
    else
      match splitLines cs with
      | [] => [[c]]
      | seg :: segs => (c :: seg) :: segs

/-- A diff line is well formed when its decoded content contains a newline
character only in final position — the contract of the line-oriented
`diff.print` callback, whose `content()` is one diff line with at most a
trailing newline. -/
def DiffLine.WF (line : DiffLine) : Prop :=
  ∀ c ∈ (line.content.getD []).dropLast, c ≠ '\n'

/-- `struct FileInfo` (git.rs lines 8–15). -/
structure FileInfo where
  path : String
  status : String
  additions : Nat
  deletions : Nat
  patch : String
  deriving Repr, DecidableEq

/-- The body of `get_diff_files` after the diff has been created (git.rs lines
78–139): the first loop collects `(path, status)` per delta (panicking — `none`
— on a delta with no path on either side); the second loop then, for each
collected file, reads `diff.stats()` and reprints the whole diff as that
file's patch. Branch/tree resolution failures are upstream of the diff object
and outside this function of it. -/
def get_diff_files (diff : Diff) : Option (List FileInfo) := do
  let files ← diff.mapM fun delta =>
    (delta_file_path delta).map fun p => (p, delta_status_str delta)
  let result := files.map fun ps =>
    { path := ⟨ps.1⟩
      status := ps.2
      additions := diff.stats_insertions
      deletions := diff.stats_deletions
      patch := ⟨diff_patch_chars diff⟩ : FileInfo }
  return result

/-! ## The server slice (src/server.rs, src/main.rs)

Claim C10 concerns which base branch the diff handler compares against.  The
relevant data flow: `main.rs` parses `--base` (default "main") into
`Commands::Start { port, base }` and calls `server::start(port, base)`;
`start` builds an `AppState` holding only the repository and the state
manager — the `base_branch` argument is logged and dropped — and
`diff_handler` calls `state.git_repo.get_diff_files("main")` with a string
literal.  The repository is abstracted as the function taking a base-branch
name to `get_diff_files`'s outcome. -/

/-- `Commands::Start { port, base }` (main.rs lines 17–28). -/
structure StartCommand where
  port : Nat
  base : String
  deriving Repr, DecidableEq

/-- The diff computation `diff_handler` performs (server.rs line 83), as a
function of the `base_branch` string `server::start` received (server.rs line
46) and of the repository (abstracted by its `get_diff_files` behaviour):
the handler passes the literal `"main"`. -/
def diff_handler_files (base_branch : String) (repo : String → Option (List FileInfo)) :
    Option (List FileInfo) :=
  let _ := base_branch
  repo "main"

/-- The same diff computation as launched from the CLI (main.rs lines 42–46):
`server::start(port, base)` with the parsed `Start` command. -/
def start_command_diff (cmd : StartCommand) (repo : String → Option (List FileInfo)) :
    Option (List FileInfo) :=
  diff_handler_files cmd.base repo

/-! ## Concrete inputs used in evaluations and witnesses -/

/-- `a.txt` modified: 3 lines added, 1 deleted, with its printed file header,
hunk header and hunk lines. -/
def deltaA : DiffFileDelta :=
  { new_path := some ⟨some "a.txt"⟩
    old_path := some ⟨some "a.txt"⟩
    status := .modified
    insertions := 3
    deletions := 1
    lines :=
      [⟨'F', some "diff --git a/a.txt b/a.txt\n".data⟩,
       ⟨'H', some "@@ -1,2 +1,4 @@\n".data⟩,
       ⟨' ', some "ctx\n".data⟩,
       ⟨'-', some "old\n".data⟩,
       ⟨'+', some "n1\n".data⟩,
       ⟨'+', some "n2\n".data⟩,
       ⟨'+', some "n3\n".data⟩] }

/-- `b.txt` added: 2 lines added. -/
def deltaB : DiffFileDelta :=
  { new_path := some ⟨some "b.txt"⟩
    old_path := none
    status := .added
    insertions := 2
    deletions := 0
    lines :=
      [⟨'F', some "diff --git a/b.txt b/b.txt\n".data⟩,
       ⟨'H', some "@@ -0,0 +1,2 @@\n".data⟩,
       ⟨'+', some "x\n".data⟩,
       ⟨'+', some "y\n".data⟩] }

/-- A diff touching two files, with different per-file statistics. -/
def diffTwoFiles : Diff := [deltaA, deltaB]

/-- A delta carrying no path on either side. -/
def deltaNoPaths : DiffFileDelta :=
  { new_path := none
    old_path := none
    status := .deleted
    insertions := 0
    deletions := 1
    lines := [] }

/-- A pure-deletion delta: only the old-file path is present. -/
def deltaOldOnly : DiffFileDelta :=
  { new_path := none
    old_path := some ⟨some "old.txt"⟩
    status := .deleted
    insertions := 0
    deletions := 1
    lines := [] }

end Guck

/-! # Theorems -/

namespace Guck

/-! ## Association-list lemmas -/

theorem alGet_upsert_self {α : Type} (m : List (String × α)) (k : String)
    (f : Option α → α) : alGet (upsert m k f) k = some (f (alGet m k)) := by
  induction m with
  | nil => simp [upsert, alGet]
  | cons p rest ih =>
    obtain ⟨k', v⟩ := p
    by_cases h : k' = k <;> simp [upsert, alGet, h, ih]

theorem alGet_upsert_ne {α : Type} (m : List (String × α)) (k k' : String)
    (f : Option α → α) (h : k' ≠ k) : alGet (upsert m k f) k' = alGet m k' := by
  induction m with
  | nil => simp [upsert, alGet, Ne.symm h]
  | cons p rest ih =>
    obtain ⟨k'', v⟩ := p
    by_cases h2 : k'' = k
    · subst h2
      simp [upsert, alGet, Ne.symm h]
    · simp [upsert, alGet, h2, ih]

theorem upsert_upsert {α : Type} (m : List (String × α)) (k : String)
    (f g : Option α → α) :
    upsert (upsert m k f) k g = upsert m k (fun v => g (some (f v))) := by
  induction m with
  | nil => simp [upsert]
  | cons p rest ih =>
    obtain ⟨k', v⟩ := p
    by_cases h : k' = k <;> simp [upsert, h, ih]

theorem bind_alGet {α : Type} (x : Option (List (String × α))) (k : String) :
    x.bind (fun m => alGet m k) = alGet (x.getD []) k := by
  cases x <;> rfl

/-! ## `markList` lemmas -/

theorem mem_markList (l : List String) (f : String) : f ∈ markList l f := by
  unfold markList
  by_cases h : f ∈ l <;> simp [h]

theorem contains_markList (l : List String) (f : String) :
    (markList l f).contains f = true := by
  simpa using mem_markList l f

theorem markList_of_mem {l : List String} {f : String}
    (h : f ∈ l) : markList l f = l := by
  simp [markList, h]

theorem markList_markList (l : List String) (f : String) :
    markList (markList l f) f = markList l f :=
  markList_of_mem (mem_markList l f)

theorem count_markList {l : List String} {f : String} (h : l.count f ≤ 1) :
    (markList l f).count f ≤ 1 := by
  by_cases hm : f ∈ l
  · simpa [markList, hm] using h
  · have h0 : l.count f = 0 := List.count_eq_zero_of_not_mem hm
    simp [markList, hm, List.count_append, h0]

/-! ## `mark_state` / `is_file_viewed` lemmas -/

theorem upsert_ext {α : Type} (m : List (String × α)) (k : String)
    {f g : Option α → α} (h : ∀ v, f v = g v) : upsert m k f = upsert m k g := by
  rw [funext h]

theorem is_file_viewed_eq_contains (s : ViewedState) (r b c f : String) :
    is_file_viewed s r b c f = .ok ((viewed_files s r b c).contains f) := by
  unfold is_file_viewed viewed_files
  cases alGet s.repos r with
  | none => rfl
  | some branches =>
    simp only [Option.some_bind, Option.getD_some]
    cases alGet branches b with
    | none => rfl
    | some commits =>
      simp only [Option.some_bind, Option.getD_some]
      cases alGet commits c with
      | none => rfl
      | some files => rfl

theorem viewed_files_mark_state (s : ViewedState) (r b c f : String) :
    viewed_files (mark_state s r b c f) r b c = markList (viewed_files s r b c) f := by
  unfold viewed_files mark_state
  dsimp only
  simp only [alGet_upsert_self, Option.getD_some]

theorem viewed_files_mark_state_ne (s : ViewedState) (r b c f r' b' c' : String)
    (h : r' ≠ r ∨ b' ≠ b ∨ c' ≠ c) :
    viewed_files (mark_state s r b c f) r' b' c' = viewed_files s r' b' c' := by
  unfold viewed_files mark_state
  dsimp only
  rcases h with hr | hb | hc
  · rw [alGet_upsert_ne _ _ _ _ hr]
  · by_cases hr : r' = r
    · subst hr
      rw [alGet_upsert_self, Option.getD_some, alGet_upsert_ne _ _ _ _ hb]
    · rw [alGet_upsert_ne _ _ _ _ hr]
  · by_cases hr : r' = r
    · subst hr
      by_cases hb : b' = b
      · subst hb
        rw [alGet_upsert_self, Option.getD_some, alGet_upsert_self,
          Option.getD_some, alGet_upsert_ne _ _ _ _ hc]
      · rw [alGet_upsert_self, Option.getD_some, alGet_upsert_ne _ _ _ _ hb]
    · rw [alGet_upsert_ne _ _ _ _ hr]

theorem mark_state_idem (s : ViewedState) (r b c f : String) :
    mark_state (mark_state s r b c f) r b c f = mark_state s r b c f := by
  unfold mark_state
  dsimp only
  refine congrArg ViewedState.mk ?_
  rw [upsert_upsert]
  refine upsert_ext _ _ fun v => ?_
  simp only [Option.getD_some]
  rw [upsert_upsert]
  refine upsert_ext _ _ fun w => ?_
  simp only [Option.getD_some]
  rw [upsert_upsert]
  refine upsert_ext _ _ fun u => ?_
  simp only [Option.getD_some]
  exact markList_markList _ _

/-! ## Claims C5, C8, C9 -/

/-- C5: marking a file viewed is idempotent: marking `(r, b, c, f)` twice in
sequence leaves both the in-memory manager and the persisted document
identical to marking once; `is_viewed` reports `true` after one call (and
hence after the second, which changes nothing); and the per-key collection
holds no duplicate entry for `f` after any number of marks. -/
theorem mark_file_viewed_idempotent (m : StateManager) (r b c f : String)
    (hdup : (viewed_files m.state r b c).count f ≤ 1) :
    mark_file_viewed (mark_file_viewed m r b c f).1 r b c f = mark_file_viewed m r b c f
    ∧ is_file_viewed (mark_file_viewed m r b c f).1.state r b c f = .ok true
    ∧ ∀ n, (viewed_files (mark_iter n m r b c f).state r b c).count f ≤ 1 := by
  refine ⟨?_, ?_, ?_⟩
  · show (⟨_⟩, _) = ((⟨_⟩, _) : StateManager × Json)
    have h := mark_state_idem m.state r b c f
    simp only [mark_file_viewed, StateManager.save, h]
  · rw [show (mark_file_viewed m r b c f).1.state = mark_state m.state r b c f from rfl,
      is_file_viewed_eq_contains, viewed_files_mark_state, contains_markList]
  · intro n
    induction n with
    | zero => exact hdup
    | succ k ih =>
      rw [show (mark_iter (k + 1) m r b c f).state
            = mark_state (mark_iter k m r b c f).state r b c f from rfl,
        viewed_files_mark_state]
      exact count_markList ih

/-- C5 witness: marking `src/a.txt` twice from the empty store equals marking
it once, the file reads back as viewed, and after three marks the per-key
collection still holds a single entry. -/
theorem mark_file_viewed_idempotent_witness :
    mark_file_viewed (mark_file_viewed ⟨ViewedState.default⟩ "/repo" "main" "c2" "src/a.txt").1
        "/repo" "main" "c2" "src/a.txt"
      = mark_file_viewed ⟨ViewedState.default⟩ "/repo" "main" "c2" "src/a.txt"
    ∧ is_file_viewed (mark_file_viewed ⟨ViewedState.default⟩ "/repo" "main" "c2" "src/a.txt").1.state
        "/repo" "main" "c2" "src/a.txt" = .ok true
    ∧ (viewed_files (mark_iter 3 ⟨ViewedState.default⟩ "/repo" "main" "c2" "src/a.txt").state
        "/repo" "main" "c2").count "src/a.txt" ≤ 1 := by
  have h := mark_file_viewed_idempotent ⟨ViewedState.default⟩ "/repo" "main" "c2" "src/a.txt"
    (by decide)
  exact ⟨h.1, h.2.1, h.2.2 3⟩

/-- C8: `is_file_viewed` is a pure lookup that never fails: it always returns
`Ok`, and absence of the repository, branch or commit level of the key, or of
the file in the per-key collection, yields `Ok(false)`. -/
theorem is_file_viewed_total (s : ViewedState) (r b c f : String) :
    (∃ bl, is_file_viewed s r b c f = .ok bl)
    ∧ (alGet s.repos r = none → is_file_viewed s r b c f = .ok false)
    ∧ (∀ branches, alGet s.repos r = some branches → alGet branches b = none →
        is_file_viewed s r b c f = .ok false)
    ∧ (∀ branches commits, alGet s.repos r = some branches →
        alGet branches b = some commits → alGet commits c = none →
        is_file_viewed s r b c f = .ok false)
    ∧ (∀ branches commits files, alGet s.repos r = some branches →
        alGet branches b = some commits → alGet commits c = some files →
        f ∉ files → is_file_viewed s r b c f = .ok false) := by
  refine ⟨⟨_, rfl⟩, ?_, ?_, ?_, ?_⟩
  · intro hr
    simp [is_file_viewed, hr]
  · intro branches hr hb
    simp [is_file_viewed, hr, hb]
  · intro branches commits hr hb hc
    simp [is_file_viewed, hr, hb, hc]
  · intro branches commits files hr hb hc hf
    simp [is_file_viewed, hr, hb, hc, hf]

/-- C8 witness: on the empty store every lookup is `Ok(false)` with no
repository-level entry present. -/
theorem is_file_viewed_total_witness :
    alGet (ViewedState.default).repos "/repo" = none
    ∧ is_file_viewed ViewedState.default "/repo" "main" "c2" "src/a.txt" = .ok false :=
  ⟨rfl, (is_file_viewed_total ViewedState.default "/repo" "main" "c2" "src/a.txt").2.1 rfl⟩

/-- C9: marking one key viewed does not change `is_viewed` for any key that
differs in repository path, branch, or commit. -/
theorem mark_file_viewed_isolated (m : StateManager) (r b c f r' b' c' f' : String)
    (h : r' ≠ r ∨ b' ≠ b ∨ c' ≠ c) :
    is_file_viewed (mark_file_viewed m r b c f).1.state r' b' c' f'
      = is_file_viewed m.state r' b' c' f' := by
  rw [show (mark_file_viewed m r b c f).1.state = mark_state m.state r b c f from rfl,
    is_file_viewed_eq_contains, is_file_viewed_eq_contains,
    viewed_files_mark_state_ne m.state r b c f r' b' c' h]

/-! ## JSON round trip and claims C6, C7 -/

theorem decodeList_map {α : Type} (f : Json → Option α) (g : α → Json)
    (h : ∀ a, f (g a) = some a) (l : List α) :
    decodeList f (l.map g) = some l := by
  induction l with
  | nil => rfl
  | cons a rest ih => simp [decodeList, h a, ih]

theorem decodeFields_map {α : Type} (f : Json → Option α) (g : α → Json)
    (h : ∀ a, f (g a) = some a) (l : List (String × α)) :
    decodeFields f (l.map fun p => (p.1, g p.2)) = some l := by
  induction l with
  | nil => rfl
  | cons p rest ih =>
    obtain ⟨k, a⟩ := p
    simp [decodeFields, h a, ih]

theorem decFiles_encFiles (l : List String) : decFiles (encFiles l) = some l :=
  decodeList_map decStr Json.str (fun _ => rfl) l

theorem decCommits_encCommits (l : List (String × List String)) :
    decCommits (encCommits l) = some l :=
  decodeFields_map decFiles encFiles decFiles_encFiles l

theorem decBranches_encBranches (l : List (String × List (String × List String))) :
    decBranches (encBranches l) = some l :=
  decodeFields_map decCommits encCommits decCommits_encCommits l

theorem decRepos_encRepos (l : List (String × List (String × List (String × List String)))) :
    decRepos (encRepos l) = some l :=
  decodeFields_map decBranches encBranches decBranches_encBranches l

/-- Serializing the state and deserializing the result gives the state back. -/
theorem fromJson_toJson (s : ViewedState) : ViewedState.fromJson s.toJson = some s := by
  unfold ViewedState.toJson ViewedState.fromJson
  simp [alGet, decRepos_encRepos]

/-- C6: after `mark_file_viewed` returns, a manager reconstructed solely from
the persisted document (a fresh `StateManager::new` reading the state file the
call wrote) equals the in-memory manager the call produced, and it reports the
marked key as viewed. -/
theorem mark_file_viewed_durable (m : StateManager) (r b c f : String) :
    StateManager.new (FileData.json (mark_file_viewed m r b c f).2)
      = .ok (mark_file_viewed m r b c f).1
    ∧ is_file_viewed (mark_file_viewed m r b c f).1.state r b c f = .ok true := by
  constructor
  · show StateManager.new (FileData.json (mark_state m.state r b c f).toJson) = _
    simp only [StateManager.new, fromJson_toJson, Option.getD_some]
    rfl
  · rw [show (mark_file_viewed m r b c f).1.state = mark_state m.state r b c f from rfl,
      is_file_viewed_eq_contains, viewed_files_mark_state, contains_markList]

/-- C7: when the state file holds content that is not valid JSON of the
expected shape — whether it fails to parse as JSON at all or parses to a
document the state decoder rejects — `StateManager::new` succeeds and starts
from the empty state; the parse failure is never propagated as an error. -/
theorem new_recovers_from_corrupt_file :
    StateManager.new FileData.invalid = .ok ⟨ViewedState.default⟩
    ∧ ∀ j, ViewedState.fromJson j = none →
        StateManager.new (FileData.json j) = .ok ⟨ViewedState.default⟩ := by
  refine ⟨rfl, fun j hj => ?_⟩
  simp only [StateManager.new, hj, Option.getD_none]

/-- C7 witness: a state file holding the JSON document `"garbage"` (valid
JSON, wrong shape) yields a manager with the empty state. -/
theorem new_recovers_from_corrupt_file_witness :
    ViewedState.fromJson (Json.str "garbage") = none
    ∧ StateManager.new (FileData.json (Json.str "garbage")) = .ok ⟨ViewedState.default⟩ :=
  ⟨rfl, new_recovers_from_corrupt_file.2 (Json.str "garbage") rfl⟩

/-- C9 witness: the spec's concrete scenario — marking
`("repoA", "main", "abc123", "x.txt")` leaves
`is_viewed("repoA", "main", "def456", "x.txt")` at `false`. -/
theorem mark_file_viewed_isolated_witness :
    is_file_viewed (mark_file_viewed ⟨ViewedState.default⟩ "repoA" "main" "abc123" "x.txt").1.state
      "repoA" "main" "def456" "x.txt" = .ok false := by
  rw [mark_file_viewed_isolated ⟨ViewedState.default⟩ "repoA" "main" "abc123" "x.txt"
    "repoA" "main" "def456" "x.txt" (Or.inr (Or.inr (by decide)))]
  rfl

/-! ## Diff-engine claims C1, C2, C4, C10 -/

/-- C1: the claim says each `FileChange` carries the line counts for its own
file alone.  Evaluating the code on a two-file diff whose per-file statistics
are 3+/1 and 2+/0 shows both returned records carry the whole-diff totals
5 and 1 instead: `get_diff_files` reads `diff.stats()` — aggregate counts over
the entire diff — inside its per-file loop. -/
theorem get_diff_files_uses_aggregate_stats :
    (get_diff_files diffTwoFiles).map (fun r => r.map FileInfo.additions) = some [5, 5]
    ∧ (get_diff_files diffTwoFiles).map (fun r => r.map FileInfo.deletions) = some [1, 1]
    ∧ diffTwoFiles.map DiffFileDelta.insertions = [3, 2]
    ∧ diffTwoFiles.map DiffFileDelta.deletions = [1, 0] :=
  ⟨rfl, rfl, rfl, rfl⟩

/-- C2: the claim says the sums of the `additions` and `deletions` fields
equal the repository's aggregate counts for the comparison.  On the same
two-file diff the sums are 10 and 2 while the diff's own aggregate counts are
5 and 1: every record repeats the aggregate, so the sums are `n` times it. -/
theorem get_diff_files_sum_exceeds_aggregate :
    (get_diff_files diffTwoFiles).map (fun r => (r.map FileInfo.additions).sum) = some 10
    ∧ Diff.stats_insertions diffTwoFiles = 5
    ∧ (get_diff_files diffTwoFiles).map (fun r => (r.map FileInfo.deletions).sum) = some 2
    ∧ Diff.stats_deletions diffTwoFiles = 1 :=
  ⟨rfl, rfl, rfl, rfl⟩

/-- C4 counterexample: on a delta with no path on either side the claim says
the path becomes the empty string and the operation never fails; the code
instead hits `unwrap()` on `None` (a panic, modelled `none`), so
`get_diff_files` fails on that diff rather than returning a record with an
empty path. -/
theorem get_diff_files_no_path_panics :
    delta_file_path deltaNoPaths = none ∧ get_diff_files [deltaNoPaths] = none :=
  ⟨rfl, rfl⟩

/-- C4 amended: when the delta has a new-file path it is used; when it lacks
one, the path falls back to the old-file path; a selected path whose bytes are
not valid UTF-8 yields the empty string; but when neither side has a path the
callback panics (`none`) instead of producing an empty string. -/
theorem delta_file_path_fallback (delta : DiffFileDelta) :
    (∀ p, delta.new_path = some p →
        delta_file_path delta = some ((p.to_str.map String.data).getD []))
    ∧ (delta.new_path = none → ∀ p, delta.old_path = some p →
        delta_file_path delta = some ((p.to_str.map String.data).getD []))
    ∧ (∀ p, delta.new_path = some p → p.to_str = none →
        delta_file_path delta = some [])
    ∧ (delta.new_path = none → delta.old_path = none →
        delta_file_path delta = none) := by
  refine ⟨?_, ?_, ?_, ?_⟩
  · intro p hp
    unfold delta_file_path
    rw [hp]
  · intro hn p hp
    unfold delta_file_path
    rw [hn, hp]
  · intro p hp hu
    unfold delta_file_path
    rw [hp]
    dsimp only
    rw [hu]
    rfl
  · intro hn ho
    unfold delta_file_path
    rw [hn, ho]

/-- C4 amended witness: a pure-deletion delta whose only path is the old-file
path `old.txt` resolves to `old.txt`. -/
theorem delta_file_path_fallback_witness :
    delta_file_path deltaOldOnly = some "old.txt".data :=
  (delta_file_path_fallback deltaOldOnly).2.1 rfl ⟨some "old.txt"⟩ rfl

/-- C10: whatever base branch the server is started with (CLI `--base`
included), the diff handler always requests the diff for the literal branch
name `main`; two starts with different configured bases produce the same
comparison. -/
theorem diff_handler_ignores_configured_base (cmd cmd' : StartCommand)
    (repo : String → Option (List FileInfo)) :
    start_command_diff cmd repo = repo "main"
    ∧ start_command_diff cmd repo = start_command_diff cmd' repo :=
  ⟨rfl, rfl⟩

/-! ## Claim C3: shape of the patch text -/

theorem splitLines_ne_nil (l : List Char) : splitLines l ≠ [] := by
  cases l with
  | nil => simp [splitLines]
  | cons c cs =>
    unfold splitLines
    by_cases h : c = '\n'
    · simp [h]
    · simp only [h, if_false]
      cases hs : splitLines cs with
      | nil => simp
      | cons z zs => simp

theorem splitLines_cons_newline (ys : List Char) :
    splitLines ('\n' :: ys) = [] :: splitLines ys := by
  simp [splitLines]

theorem splitLines_append (xs : List Char) :
    ∀ ys z zs, (∀ c ∈ xs, c ≠ '\n') → splitLines ys = z :: zs →
      splitLines (xs ++ ys) = (xs ++ z) :: zs := by
  induction xs with
  | nil =>
    intro ys z zs _ hys
    simpa using hys
  | cons c cs ih =>
    intro ys z zs h hys
    have hc : c ≠ '\n' := h c (by simp)
    show splitLines (c :: (cs ++ ys)) = (c :: (cs ++ z)) :: zs
    unfold splitLines
    rw [if_neg hc, ih ys z zs (fun a ha => h a (by simp [ha])) hys]

/-- Concatenating chunks that are each empty, or a marker character followed
by content whose only newline sits at the end, yields a string whose every
line is empty or starts with a marker. -/
theorem splitLines_flatten_chunks (chunks : List (List Char))
    (h : ∀ ch ∈ chunks, ch = [] ∨ ∃ m body,
        (m = '+' ∨ m = '-' ∨ m = ' ') ∧ ch = m :: body ∧
          ∀ c ∈ body.dropLast, c ≠ '\n') :
    ∀ seg ∈ splitLines chunks.flatten,
      seg = [] ∨ seg.head? = some '+' ∨ seg.head? = some '-' ∨ seg.head? = some ' ' := by
  induction chunks with
  | nil =>
    intro seg hseg
    simp [splitLines] at hseg
    exact Or.inl hseg
  | cons ch rest ih =>
    have hrest := ih fun c hc => h c (List.mem_cons_of_mem _ hc)
    rcases h ch (by simp) with hnil | ⟨m, body, hm, hch, hbody⟩
    · intro seg hseg
      rw [List.flatten_cons, hnil, List.nil_append] at hseg
      exact hrest seg hseg
    · have hmn : m ≠ '\n' := by
        rcases hm with rfl | rfl | rfl <;> decide
      obtain ⟨z, zs, hz⟩ : ∃ z zs, splitLines rest.flatten = z :: zs := by
        cases hs : splitLines rest.flatten with
        | nil => exact absurd hs (splitLines_ne_nil _)
        | cons z zs => exact ⟨z, zs, rfl⟩
      rcases List.eq_nil_or_concat body with hb | ⟨bs, last, hb⟩
      · -- chunk is just the marker character
        subst hb
        intro seg hseg
        rw [List.flatten_cons, hch,
          splitLines_append [m] rest.flatten z zs (by simpa using hmn) hz] at hseg
        rcases List.mem_cons.1 hseg with rfl | hmem
        · right
          rcases hm with rfl | rfl | rfl <;> simp
        · exact hrest seg (hz ▸ List.mem_cons_of_mem _ hmem)
      · rw [List.concat_eq_append] at hb
        have hbs : ∀ c ∈ bs, c ≠ '\n' := by
          intro c hc
          exact hbody c (by rw [hb, List.dropLast_concat]; exact hc)
        by_cases hlast : last = '\n'
        · -- chunk ends with a newline: it contributes one whole line
          subst hlast
          intro seg hseg
          have hsplit : splitLines (ch ++ rest.flatten)
              = (m :: bs) :: splitLines rest.flatten := by
            have : ch ++ rest.flatten = (m :: bs) ++ ('\n' :: rest.flatten) := by
              rw [hch, hb]
              simp
            rw [this, splitLines_append (m :: bs) ('\n' :: rest.flatten)
              [] (splitLines rest.flatten) ?_ (splitLines_cons_newline _)]
            · simp
            · intro c hc
              rcases List.mem_cons.1 hc with rfl | hcm
              · exact hmn
              · exact hbs c hcm
          rw [List.flatten_cons, hsplit] at hseg
          rcases List.mem_cons.1 hseg with rfl | hmem
          · right
            rcases hm with rfl | rfl | rfl <;> simp
          · exact hrest seg hmem
        · -- chunk has no newline at all: it glues onto the next line
          intro seg hseg
          have hchn : ∀ c ∈ ch, c ≠ '\n' := by
            intro c hc
            rw [hch, hb] at hc
            rcases List.mem_cons.1 hc with rfl | hcm
            · exact hmn
            rcases List.mem_append.1 hcm with hcb | hcl
            · exact hbs c hcb
            · rcases List.mem_singleton.1 hcl with rfl
              exact hlast
          rw [List.flatten_cons,
            splitLines_append ch rest.flatten z zs hchn hz] at hseg
          rcases List.mem_cons.1 hseg with rfl | hmem
          · right
            rw [hch]
            rcases hm with rfl | rfl | rfl <;> simp
          · exact hrest seg (hz ▸ List.mem_cons_of_mem _ hmem)

/-- Every chunk the print callback appends is empty or a marker followed by
one well-formed diff line. -/
theorem line_chunk_good (diff : Diff)
    (hwf : ∀ d ∈ diff, ∀ l ∈ d.lines, ∀ c ∈ (l.content.getD []).dropLast, c ≠ '\n') :
    ∀ ch ∈ ((diff.map DiffFileDelta.lines).flatten.map line_chunk),
      ch = [] ∨ ∃ m body, (m = '+' ∨ m = '-' ∨ m = ' ') ∧ ch = m :: body ∧
        ∀ c ∈ body.dropLast, c ≠ '\n' := by
  intro ch hch
  rcases List.mem_map.1 hch with ⟨line, hline, rfl⟩
  rcases List.mem_flatten.1 hline with ⟨lines, hlines, hmem⟩
  rcases List.mem_map.1 hlines with ⟨d, hd, rfl⟩
  unfold line_chunk
  by_cases ho : line.origin = '+' ∨ line.origin = '-' ∨ line.origin = ' '
  · rw [if_pos ho]
    exact Or.inr ⟨line.origin, line.content.getD [], ho, rfl, hwf d hd line hmem⟩
  · rw [if_neg ho]
    exact Or.inl rfl

/-- C3: for every `FileChange` that `get_diff_files` returns, every line of
its `patch` is empty or begins with `+`, `-`, or a single space, and no line
begins with `@@` or `diff --git`: the print callback keeps only
addition/deletion/context lines, dropping hunk headers and file headers. -/
theorem get_diff_files_patch_shape (diff : Diff)
    (hwf : ∀ d ∈ diff, ∀ l ∈ d.lines, ∀ c ∈ (l.content.getD []).dropLast, c ≠ '\n')
    (result : List FileInfo) (hres : get_diff_files diff = some result) :
    ∀ fi ∈ result, ∀ seg ∈ splitLines fi.patch.data,
      (seg = [] ∨ seg.head? = some '+' ∨ seg.head? = some '-' ∨ seg.head? = some ' ')
      ∧ seg.take 2 ≠ "@@".data ∧ seg.take 10 ≠ "diff --git".data := by
  intro fi hfi seg hseg
  have hpatch : fi.patch.data = diff_patch_chars diff := by
    unfold get_diff_files at hres
    cases hx : diff.mapM fun delta =>
        (delta_file_path delta).map fun p => (p, delta_status_str delta) with
    | none =>
      rw [hx] at hres
      exact absurd hres (by simp [Bind.bind, Option.bind])
    | some files =>
      rw [hx] at hres
      simp only [Bind.bind, Option.some_bind, Option.pure_def, Option.some.injEq] at hres
      subst hres
      rcases List.mem_map.1 hfi with ⟨ps, _, rfl⟩
      rfl
  rw [hpatch] at hseg
  have hgood := splitLines_flatten_chunks
    ((diff.map DiffFileDelta.lines).flatten.map line_chunk)
    (line_chunk_good diff hwf) seg hseg
  refine ⟨hgood, ?_, ?_⟩
  · rcases hgood with rfl | hh | hh | hh
    · simp
    all_goals
      cases seg with
      | nil => simp at hh
      | cons a t =>
        simp only [List.head?_cons, Option.some.injEq] at hh
        subst hh
        simp [List.take, String.data]
  · rcases hgood with rfl | hh | hh | hh
    · simp
    all_goals
      cases seg with
      | nil => simp at hh
      | cons a t =>
        simp only [List.head?_cons, Option.some.injEq] at hh
        subst hh
        simp [List.take, String.data]

/-- C3 witness: on the concrete two-file diff, the returned record for
`a.txt` is in the result, the line `+n1` of its patch starts with `+`, and it
starts with neither `@@` nor `diff --git`. -/
theorem get_diff_files_patch_shape_witness :
    ("+n1".data = [] ∨ ("+n1".data).head? = some '+' ∨ ("+n1".data).head? = some '-'
        ∨ ("+n1".data).head? = some ' ')
    ∧ ("+n1".data).take 2 ≠ "@@".data ∧ ("+n1".data).take 10 ≠ "diff --git".data :=
  get_diff_files_patch_shape diffTwoFiles (by decide)
    ((get_diff_files diffTwoFiles).getD []) rfl
    ⟨"a.txt", "modified", 5, 1, ⟨diff_patch_chars diffTwoFiles⟩⟩ (by decide)
    "+n1".data (by decide)

end Guck
